import Mathlib

/-!
Verification of the test-case driver and execution core of the rust-wasm
repository (`src/testcase.rs`), against its natural-language specification.

The repository ships only `src/testcase.rs`; the modules it links against
(`sexpr`, `types`, `ops`, `module`, `interp`) are declared but their sources
are not part of the repository snapshot.  Definitions for those are modelled
from the specification (each is marked `Modelled from the spec:`); everything
else is a direct shallow embedding of `src/testcase.rs`.

Conventions of the embedding:
* Rust functions that can `panic` (including `unwrap`, `assert!`,
  `assert_eq!` and explicit `panic` calls) are embedded as `Option`-returning
  functions, `none` standing for the process abort.
* Machine integers are `Nat` bit patterns (`x < 2 ^ w`), with wrapping made
  explicit through `% 2 ^ w`; signed views go through `toSigned`.
* Rust's `HashMap` (used for `local_names` / `function_names`, whose only
  operations here are `insert` and `get`) is embedded as an association list
  where `insert` conses in front and lookup takes the first match, which
  reproduces the overwrite-on-insert behaviour of `HashMap`.
-/

namespace Wasm

/-- Modelled from the spec: the s-expression tree produced by the (excluded)
text-format front end, `sexpr.rs`.  The four constructors are the ones
`testcase.rs` pattern-matches on: nested lists, bare identifiers, string
literals and `$`-variables. -/
inductive Sexpr where
  | List (items : List Sexpr)
  | Identifier (s : String)
  | String (s : String)
  | Variable (s : String)

/-- Modelled from the spec: `types.rs` `Type` — an enum over
{Int32, Int64, Float32, Float64} (spec section 3). -/
inductive Ty where
  | Int32
  | Int64
  | Float32
  | Float64
deriving DecidableEq

/-- Modelled from the spec: `types.rs` `Type::to_u8`.  The concrete numeric
codes are not observable through any claim; only injectivity and list
lengths matter, so the codes are chosen as the declaration order. -/
def Ty.to_u8 : Ty → Nat
  | .Int32 => 0
  | .Int64 => 1
  | .Float32 => 2
  | .Float64 => 3

/-- Modelled from the spec: `types.rs` `IntType` — the two integer widths
integer instructions are tagged with. -/
inductive IntType where
  | Int32
  | Int64
deriving DecidableEq

/-- Bit width of an `IntType`. -/
def IntType.bits : IntType → Nat
  | .Int32 => 32
  | .Int64 => 64

/-- Modelled from the spec: `types.rs` `Dynamic` — a tagged union holding one
typed scalar (spec section 3).  Integer payloads are bit patterns; unsigned
and signed variants of a width share the representation.  Floats are carried
as raw bit patterns and are never operated on (all float instructions are
stubs in this engine). -/
inductive Dynamic where
  | Int32 (bits : Nat)
  | Int64 (bits : Nat)
  | Float32 (bits : Nat)
  | Float64 (bits : Nat)
deriving DecidableEq

/-- Truncate a mathematical integer to a `w`-bit pattern (twos-complement). -/
def wrap (w : Nat) (x : Int) : Nat := (x % (2 ^ w : Int)).toNat

/-- Signed (twos-complement) reading of a `w`-bit pattern. -/
def toSigned (w : Nat) (x : Nat) : Int :=
  if x < 2 ^ (w - 1) then (x : Int) else (x : Int) - 2 ^ w

/-- Modelled from the spec: `Dynamic::from_u32`. -/
def Dynamic.from_u32 (n : Nat) : Dynamic := .Int32 (n % 2 ^ 32)

/-- Modelled from the spec: `Dynamic::from_i32`. -/
def Dynamic.from_i32 (x : Int) : Dynamic := .Int32 (wrap 32 x)

/-- Modelled from the spec: `Dynamic::from_u64`. -/
def Dynamic.from_u64 (n : Nat) : Dynamic := .Int64 (n % 2 ^ 64)

/-- Modelled from the spec: `Dynamic::from_i64`. -/
def Dynamic.from_i64 (x : Int) : Dynamic := .Int64 (wrap 64 x)

/-- Modelled from the spec: `ops.rs` `IntBinOp` (spec section 4.1, the
fifteen two-operand integer operations). -/
inductive IntBinOp where
  | Add | Sub | Mul | DivS | DivU | RemS | RemU
  | And | Or | Xor | Shl | ShrU | ShrS | Rotl | Rotr
deriving DecidableEq

/-- Modelled from the spec: `ops.rs` `IntUnOp`. -/
inductive IntUnOp where
  | Clz | Ctz | Popcnt
deriving DecidableEq

/-- Modelled from the spec: `ops.rs` `IntCmpOp`. -/
inductive IntCmpOp where
  | Eq | Ne | LtS | LeS | LtU | LeU | GtS | GeS | GtU | GeU
deriving DecidableEq

/-- Modelled from the spec: the subset of `ops.rs` `NormalOp` that
`testcase.rs` constructs (spec section 4.1). -/
inductive NormalOp where
  | Nop
  | Return (has_arg : Bool)
  | GetLocal (i : Nat)
  | SetLocal (i : Nat)
  | TeeLocal (i : Nat)
  | IntBin (ty : IntType) (op : IntBinOp)
  | IntUn (ty : IntType) (op : IntUnOp)
  | IntCmp (ty : IntType) (op : IntCmpOp)
  | IntEqz (ty : IntType)
deriving DecidableEq

/-- Modelled from the spec: `module.rs` function signature — ordered
parameter types (stored as `u8` codes in the builder) and optional return
type (spec section 3, Function). -/
structure FuncTy where
  param_types : List Nat
  return_type : Option Ty
deriving DecidableEq

/-- Modelled from the spec: the compiled function body produced by
`FunctionBuilder::build` — declared-local types plus the flat instruction
sequence (spec sections 3 and 4.2). -/
structure FunctionBody where
  local_types : List Ty
  ops : List NormalOp
deriving DecidableEq

/-- Modelled from the spec: `module.rs` `Export` — a pair of external name
and function index (spec section 3).  The source stores the name as a byte
string (`Vec<u8>` built from `name.as_bytes()`); it is embedded as the
`String` it came from, since byte-string equality of UTF-8 encodings agrees
with `String` equality. -/
structure Export where
  function_index : Nat
  function_name : String
deriving DecidableEq

/-- Modelled from the spec: `module.rs` `Module` — ordered function
signatures, their bodies at matching indices, and the export table (spec
section 3).  The linear-memory fields are omitted: they are never touched by
the instruction subset specified for this core. -/
structure Module where
  functions : List FuncTy
  code : List FunctionBody
  exports : List Export
deriving DecidableEq

/-- Modelled from the spec: `Module::new` — the empty module the builder
starts from. -/
def Module.new : Module := ⟨[], [], []⟩

/-- Modelled from the spec (section 4.4): `Module::find` resolves an external
name against the export table in declared order, returning the first match,
or `none` when no export carries the name. -/
def Module.find (m : Module) (name : String) : Option Nat :=
  (m.exports.find? (fun e => e.function_name = name)).map (fun e => e.function_index)

/-- Modelled from the spec: `module.rs` `FunctionBuilder` — the mutable
function under construction in `TestCase::parse`. -/
structure FunctionBuilder where
  ty : FuncTy
  local_types : List Ty
  ops : List NormalOp

/-- Modelled from the spec: `FunctionBuilder::new`. -/
def FunctionBuilder.new : FunctionBuilder := ⟨⟨[], none⟩, [], []⟩

/-- Modelled from the spec: `FunctionBuilder::build` packages the declared
locals and instruction sequence into the body stored in `Module::code`. -/
def FunctionBuilder.build (f : FunctionBuilder) : FunctionBody :=
  ⟨f.local_types, f.ops⟩

/-- Modelled from the spec: `interp.rs` `InterpResult` — the machine result
of an invocation: a returned value, the absence of one, or a trap (spec
section 4.3). -/
inductive InterpResult where
  | Value (v : Option Dynamic)
  | Trap
deriving DecidableEq

/-- Truncating (toward-zero) integer division, as Rust's `/` on signed
integers. -/
def itdiv (a b : Int) : Int := (a.sign * b.sign) * ((a.natAbs / b.natAbs : Nat) : Int)

/-- Truncating remainder matching `itdiv` (sign follows the dividend), as
Rust's `%` on signed integers. -/
def itrem (a b : Int) : Int := a - b * itdiv a b

/-- Modelled from the spec (section 4.1, integer binary ops): evaluate a
two-operand integer instruction on `w`-bit patterns `a` (left) and `b`
(right).  `none` is the trap: division or remainder by zero, and the
signed-overflow division `MIN / -1`.  Add/Sub/Mul wrap; shift amounts are
taken modulo the bit width; Rotl/Rotr are circular rotations. -/
def evalIntBin (w : Nat) (op : IntBinOp) (a b : Nat) : Option Nat :=
  match op with
  | .Add => some ((a + b) % 2 ^ w)
  | .Sub => some (wrap w ((a : Int) - b))
  | .Mul => some ((a * b) % 2 ^ w)
  | .DivS =>
    let sa := toSigned w a
    let sb := toSigned w b
    if sb = 0 then none
    else if sa = -(2 ^ (w - 1) : Int) ∧ sb = -1 then none
    else some (wrap w (itdiv sa sb))
  | .DivU => if b = 0 then none else some (a / b)
  | .RemS =>
    let sa := toSigned w a
    let sb := toSigned w b
    if sb = 0 then none else some (wrap w (itrem sa sb))
  | .RemU => if b = 0 then none else some (a % b)
  | .And => some (a &&& b)
  | .Or => some (a ||| b)
  | .Xor => some (a ^^^ b)
  | .Shl => some ((a <<< (b % w)) % 2 ^ w)
  | .ShrU => some (a >>> (b % w))
  | .ShrS => some (wrap w (Int.fdiv (toSigned w a) (2 ^ (b % w))))
  | .Rotl =>
    let s := b % w
    some (((a <<< s) % 2 ^ w) ||| (a >>> (w - s)))
  | .Rotr =>
    let s := b % w
    some ((a >>> s) ||| ((a <<< (w - s)) % 2 ^ w))

/-- Number of trailing zero bits of `a`, with recursion fuel (`fuel` at least
the bit width suffices for nonzero `a < 2 ^ fuel`). -/
def ctzAux : Nat → Nat → Nat
  | 0, _ => 0
  | fuel + 1, a => if a % 2 = 1 then 0 else 1 + ctzAux fuel (a / 2)

/-- Number of set bits of `a`, with recursion fuel. -/
def popcntAux : Nat → Nat → Nat
  | 0, _ => 0
  | fuel + 1, a => a % 2 + popcntAux fuel (a / 2)

/-- Modelled from the spec (section 4.1, integer unary ops): leading-zero
count, trailing-zero count and population count on a `w`-bit pattern;
Clz/Ctz of zero is the full bit width. -/
def evalIntUn (w : Nat) (op : IntUnOp) (a : Nat) : Nat :=
  match op with
  | .Clz => if a = 0 then w else w - 1 - Nat.log2 a
  | .Ctz => if a = 0 then w else ctzAux w a
  | .Popcnt => popcntAux w a

/-- Modelled from the spec (section 4.1, integer comparisons): compare two
`w`-bit patterns per the operation's signedness, producing `1` or `0`. -/
def evalIntCmp (w : Nat) (op : IntCmpOp) (a b : Nat) : Nat :=
  match op with
  | .Eq => if a = b then 1 else 0
  | .Ne => if a = b then 0 else 1
  | .LtS => if toSigned w a < toSigned w b then 1 else 0
  | .LeS => if toSigned w a ≤ toSigned w b then 1 else 0
  | .LtU => if a < b then 1 else 0
  | .LeU => if a ≤ b then 1 else 0
  | .GtS => if toSigned w b < toSigned w a then 1 else 0
  | .GeS => if toSigned w b ≤ toSigned w a then 1 else 0
  | .GtU => if b < a then 1 else 0
  | .GeU => if b ≤ a then 1 else 0

/-- Wrap a result bit pattern back into a typed `Dynamic` value. -/
def mkIntValue (ty : IntType) (v : Nat) : Dynamic :=
  match ty with
  | .Int32 => .Int32 (v % 2 ^ 32)
  | .Int64 => .Int64 (v % 2 ^ 64)

/-- Extract the payload of a `Dynamic` under the given integer type tag;
`none` on a type-tag mismatch (the engine must not silently reinterpret
mismatched types, spec section 3). -/
def getIntValue (ty : IntType) (d : Dynamic) : Option Nat :=
  match ty, d with
  | .Int32, .Int32 b => some b
  | .Int64, .Int64 b => some b
  | _, _ => none

/-- Modelled from the spec (section 3): the zero/default value of a declared
local's type. -/
def zeroValue : Ty → Dynamic
  | .Int32 => .Int32 0
  | .Int64 => .Int64 0
  | .Float32 => .Float32 0
  | .Float64 => .Float64 0

/-- Modelled from the spec (sections 4.1 and 4.2): single pass over the flat
instruction sequence, maintaining the operand stack (head is top of stack)
and the locals array.  Halts at the first `Return`; falling off the end is
an implicit return of no value.  A defined failure condition yields
`some .Trap`; `none` is an engine abort on states the spec leaves to prior
validation (stack underflow, bad local index, type-tag mismatch). -/
def execOps : List NormalOp → List Dynamic → List Dynamic → Option InterpResult
  | [], _, _ => some (.Value none)
  | op :: rest, stack, locals =>
    match op with
    | .Nop => execOps rest stack locals
    | .GetLocal i =>
      match locals[i]? with
      | some v => execOps rest (v :: stack) locals
      | none => none
    | .SetLocal i =>
      match stack with
      | v :: stack2 =>
        if i < locals.length then execOps rest stack2 (locals.set i v) else none
      | [] => none
    | .TeeLocal i =>
      match stack with
      | v :: stack2 =>
        if i < locals.length then execOps rest (v :: stack2) (locals.set i v) else none
      | [] => none
    | .Return has_arg =>
      if has_arg then
        match stack with
        | v :: _ => some (.Value (some v))
        | [] => none
      else some (.Value none)
    | .IntBin ty bop =>
      match stack with
      | b :: a :: stack2 =>
        match getIntValue ty a, getIntValue ty b with
        | some av, some bv =>
          match evalIntBin ty.bits bop av bv with
          | some r => execOps rest (mkIntValue ty r :: stack2) locals
          | none => some .Trap
        | _, _ => none
      | _ => none
    | .IntUn ty uop =>
      match stack with
      | a :: stack2 =>
        match getIntValue ty a with
        | some av => execOps rest (mkIntValue ty (evalIntUn ty.bits uop av) :: stack2) locals
        | none => none
      | [] => none
    | .IntCmp ty cop =>
      match stack with
      | b :: a :: stack2 =>
        match getIntValue ty a, getIntValue ty b with
        | some av, some bv =>
          execOps rest (Dynamic.Int32 (evalIntCmp ty.bits cop av bv) :: stack2) locals
        | _, _ => none
      | _ => none
    | .IntEqz ty =>
      match stack with
      | a :: stack2 =>
        match getIntValue ty a with
        | some av => execOps rest (Dynamic.Int32 (if av = 0 then 1 else 0) :: stack2) locals
        | none => none
      | [] => none

/-- Modelled from the spec (section 3): `interp.rs` `Instance` binds a
reference to a `Module` and carries no other persistent state between
invocations in this core's scope. -/
structure Instance where
  module : Module

/-- Modelled from the spec: `Instance::new`. -/
def Instance.new (m : Module) : Instance := ⟨m⟩

/-- Modelled from the spec (section 4.3): `Instance::invoke` allocates a
fresh per-call frame — arguments copied into the first slots, declared
locals zero-initialized — and executes the function body against it.
`none` is an abort on usage errors (bad function index, argument count
mismatched with the declared signature), which the spec distinguishes from
traps. -/
def Instance.invoke (inst : Instance) (func : Nat) (args : List Dynamic) :
    Option InterpResult :=
  match inst.module.functions[func]?, inst.module.code[func]? with
  | some ty, some body =>
    if args.length = ty.param_types.length then
      execOps body.ops [] (args ++ body.local_types.map zeroValue)
    else none
  | _, _ => none

/-- `testcase.rs` `Invoke`: a parsed invocation request. -/
structure Invoke where
  function_name : String
  arguments : List Dynamic
deriving DecidableEq

/-- `testcase.rs` `Invoke::run`: resolve the function name through
`Module::find` and `unwrap` the result — a missing export is the `none`
abort, and the invocation is never entered — then invoke. -/
def Invoke.run (inv : Invoke) (inst : Instance) : Option InterpResult :=
  match inst.module.find inv.function_name with
  | some func => inst.invoke func inv.arguments
  | none => none

/-- `testcase.rs` `Assert`: one expectation of the test script. -/
inductive Assert where
  | Return (invoke : Invoke) (result : Dynamic)
  | Trap (invoke : Invoke)
deriving DecidableEq

/-- `testcase.rs` `Assert::run`: run the invocation and compare the machine
result with `assert_eq` — `some ()` when the expectation holds, `none` when
the comparison fails (the `assert_eq` abort) or the invocation itself
aborted. -/
def Assert.run (a : Assert) (inst : Instance) : Option Unit :=
  match a with
  | .Return invoke result =>
    match invoke.run inst with
    | some r => if r = InterpResult.Value (some result) then some () else none
    | none => none
  | .Trap invoke =>
    match invoke.run inst with
    | some r => if r = InterpResult.Trap then some () else none
    | none => none

/-- `testcase.rs` `TestCase`: the parsed module plus its assertions. -/
structure TestCase where
  module : Module
  asserts : List Assert
deriving DecidableEq

/-- The assertion loop of `TestCase::run_all`: each assertion runs against
the one instance, in order. -/
def runAsserts : List Assert → Instance → List (Option Unit)
  | [], _ => []
  | a :: rest, inst => a.run inst :: runAsserts rest inst

/-- `testcase.rs` `TestCase::run_all`: create one `Instance` for the module
and run every assertion against it. -/
def TestCase.run_all (tc : TestCase) : List (Option Unit) :=
  runAsserts tc.asserts (Instance.new tc.module)

/-- Sanity checks of the modelled integer semantics: unsigned division by
zero traps, `10 / 3 = 3` truncates, and the signed-overflow division
`MIN / -1` traps (spec section 8). -/
theorem evalIntBin_div_sanity :
    evalIntBin 32 .DivU 10 0 = none ∧
    evalIntBin 32 .DivU 10 3 = some 3 ∧
    evalIntBin 32 .DivS (wrap 32 (-2147483648)) (wrap 32 (-1)) = none := by
  refine ⟨by decide, by decide, by decide⟩

/-- `testcase.rs` `parse_type`: text name of a type to `Type`; any other
token aborts. -/
def parse_type (text : String) : Option Ty :=
  match text with
  | "i32" => some .Int32
  | "i64" => some .Int64
  | "f32" => some .Float32
  | "f64" => some .Float64
  | _ => none

/-- Digit value of a character in the given radix, as Rust's
`char::to_digit` (decimal digits, then lowercase, then uppercase letters;
the value must be below the radix). -/
def digitVal (radix : Nat) (c : Char) : Option Nat :=
  let v : Option Nat :=
    if '0' ≤ c ∧ c ≤ '9' then some (c.toNat - '0'.toNat)
    else if 'a' ≤ c ∧ c ≤ 'z' then some (c.toNat - 'a'.toNat + 10)
    else if 'A' ≤ c ∧ c ≤ 'Z' then some (c.toNat - 'A'.toNat + 10)
    else none
  match v with
  | some v => if v < radix then some v else none
  | none => none

/-- Accumulate digits left to right; `acc = none` while no digit has been
read, so the empty digit string is rejected. -/
def parseDigits (radix : Nat) : List Char → Option Nat → Option Nat
  | [], acc => acc
  | c :: rest, acc =>
    match digitVal radix c with
    | some v => parseDigits radix rest (some (acc.getD 0 * radix + v))
    | none => none

/-- Rust `uN::from_str_radix` for a `bits`-bit unsigned integer (the input
given as its character list): an optional `+` sign, a nonempty digit string,
and an overflow check; a `-` sign or any invalid digit is an error
(`none`). -/
def from_str_radix_u (radix bits : Nat) (s : List Char) : Option Nat :=
  let cs := match s with
    | '+' :: rest => rest
    | cs => cs
  match parseDigits radix cs none with
  | some v => if v < 2 ^ bits then some v else none
  | none => none

/-- Rust `iN::from_str_radix` for a `bits`-bit signed integer: an optional
`+` or `-` sign, a nonempty digit string, and a twos-complement range
check. -/
def from_str_radix_i (radix bits : Nat) (s : List Char) : Option Int :=
  let (neg, cs) := match s with
    | '+' :: rest => (false, rest)
    | '-' :: rest => (true, rest)
    | cs => (false, cs)
  match parseDigits radix cs none with
  | some v =>
    let x : Int := if neg then -(v : Int) else (v : Int)
    if -(2 ^ (bits - 1) : Int) ≤ x ∧ x < 2 ^ (bits - 1) then some x else none
  | none => none

/-- `testcase.rs` `parse_int`: an identifier token starting with `-` is
parsed as signed decimal, one starting with `0x` as unsigned hexadecimal of
the remainder (`&text[2..]` is `drop 2`, the two prefix characters being
single bytes), anything else as unsigned decimal; a non-identifier node or a
failed parse (`unwrap`) aborts.  Rust's `str::starts_with` is embedded as
character-list `isPrefixOf` on the token's characters. -/
def parse_int (node : Sexpr) (ty : IntType) : Option Dynamic :=
  match node with
  | .Identifier text =>
    match ty with
    | .Int32 =>
      if ['-'].isPrefixOf text.data then
        (from_str_radix_i 10 32 text.data).map Dynamic.from_i32
      else if ['0', 'x'].isPrefixOf text.data then
        (from_str_radix_u 16 32 (text.data.drop 2)).map Dynamic.from_u32
      else
        (from_str_radix_u 10 32 text.data).map Dynamic.from_u32
    | .Int64 =>
      if ['-'].isPrefixOf text.data then
        (from_str_radix_i 10 64 text.data).map Dynamic.from_i64
      else if ['0', 'x'].isPrefixOf text.data then
        (from_str_radix_u 16 64 (text.data.drop 2)).map Dynamic.from_u64
      else
        (from_str_radix_u 10 64 text.data).map Dynamic.from_u64
  | _ => none

/-- `testcase.rs` `parse_const`: a two-element list `(i32.const v)` or
`(i64.const v)`; any other head identifier or shape aborts. -/
def parse_const (s : Sexpr) : Option Dynamic :=
  match s with
  | .List [.Identifier ty, value] =>
    if ty = "i32.const" then parse_int value IntType.Int32
    else if ty = "i64.const" then parse_int value IntType.Int64
    else none
  | _ => none

/-- Map `parse_const` across the argument expressions of an invocation
(the `args.iter().map(parse_const).collect()` of `parse_invoke`). -/
def parse_consts : List Sexpr → Option (List Dynamic)
  | [] => some []
  | s :: rest =>
    match parse_const s, parse_consts rest with
    | some v, some vs => some (v :: vs)
    | _, _ => none

/-- `testcase.rs` `parse_invoke`: `(invoke "name" const...)`. -/
def parse_invoke (s : Sexpr) : Option Invoke :=
  match s with
  | .List (.Identifier "invoke" :: .String name :: args) =>
    (parse_consts args).map (fun vs => ⟨name, vs⟩)
  | _ => none

/-- Lookup in the association-list embedding of `HashMap`: first match wins,
which is the latest insertion. -/
def lookupName (names : List (String × Nat)) (v : String) : Option Nat :=
  (names.find? (fun p => p.1 = v)).map (fun p => p.2)

/-- `testcase.rs` `read_local`: exactly one operand expression, which must be
a variable bound in the local-name table (`unwrap` aborts otherwise). -/
def read_local (exprs : List Sexpr) (local_names : List (String × Nat)) : Option Nat :=
  match exprs with
  | [.Variable name] => lookupName local_names name
  | _ => none

/-- The instruction tags of `parse_op` that push exactly one `NormalOp::Nop`
and ignore their arguments: `nop` itself, plus every recognized-but-stubbed
tag (`unreachable`/`drop`/`end`, the const tags, calls, memory access and
size operations, and all floating-point and conversion tags). -/
def nopTags : List String :=
  ["nop", "unreachable", "drop", "end",
   "i32.const", "i64.const", "f64.const", "f32.const",
   "call", "callindirect", "callimport",
   "i32.load8s", "i32.load8u", "i32.load16s", "i32.load16u",
   "i64.load8s", "i64.load8u", "i64.load16s", "i64.load16u",
   "i64.load32s", "i64.load32u", "i32.load", "i64.load", "f32.load", "f64.load",
   "i32.store8", "i32.store16", "i64.store8", "i64.store16", "i64.store32",
   "i32.store", "i64.store", "f32.store", "f64.store",
   "current_memory", "grow_memory",
   "f32.add", "f32.sub", "f32.mul", "f32.div", "f32.min", "f32.max",
   "f32.abs", "f32.neg", "f32.copysign", "f32.ceil", "f32.floor", "f32.trunc",
   "f32.nearest", "f32.sqrt",
   "f32.eq", "f32.ne", "f32.lt", "f32.le", "f32.gt", "f32.ge",
   "f64.add", "f64.sub", "f64.mul", "f64.div", "f64.min", "f64.max",
   "f64.abs", "f64.neg", "f64.copysign", "f64.ceil", "f64.floor", "f64.trunc",
   "f64.nearest", "f64.sqrt",
   "f64.eq", "f64.ne", "f64.lt", "f64.le", "f64.gt", "f64.ge",
   "i32.trunc_s/f32", "i32.trunc_s/f64", "i32.trunc_u/f32", "i32.trunc_u/f64",
   "i32.wrap/i64", "i64.trunc_s/f32", "i64.trunc_s/f64", "i64.trunc_u/f32",
   "i64.trunc_u/f64", "i64.extend_s/i32", "i64.extend_u/i32",
   "f32.convert_s/i32", "f32.convert_u/i32", "f32.convert_s/i64", "f32.convert_u/i64",
   "f32.demote/f64", "f32.reinterpret/i32",
   "f64.convert_s/i32", "f64.convert_u/i32", "f64.convert_s/i64", "f64.convert_u/i64",
   "f64.promote/f32", "f64.reinterpret/i64",
   "i32.reinterpret/f32", "i64.reinterpret/f64"]

/-- The two-operand integer arithmetic/bitwise/shift/rotate tags of
`parse_op` and the `IntBin` instruction each emits. -/
def intBinTags : List (String × (IntType × IntBinOp)) :=
  [("i32.add", (.Int32, .Add)), ("i32.sub", (.Int32, .Sub)), ("i32.mul", (.Int32, .Mul)),
   ("i32.div_s", (.Int32, .DivS)), ("i32.div_u", (.Int32, .DivU)),
   ("i32.rem_s", (.Int32, .RemS)), ("i32.rem_u", (.Int32, .RemU)),
   ("i32.and", (.Int32, .And)), ("i32.or", (.Int32, .Or)), ("i32.xor", (.Int32, .Xor)),
   ("i32.shl", (.Int32, .Shl)), ("i32.shr_u", (.Int32, .ShrU)), ("i32.shr_s", (.Int32, .ShrS)),
   ("i32.rotr", (.Int32, .Rotr)), ("i32.rotl", (.Int32, .Rotl)),
   ("i64.add", (.Int64, .Add)), ("i64.sub", (.Int64, .Sub)), ("i64.mul", (.Int64, .Mul)),
   ("i64.div_s", (.Int64, .DivS)), ("i64.div_u", (.Int64, .DivU)),
   ("i64.rem_s", (.Int64, .RemS)), ("i64.rem_u", (.Int64, .RemU)),
   ("i64.and", (.Int64, .And)), ("i64.or", (.Int64, .Or)), ("i64.xor", (.Int64, .Xor)),
   ("i64.shl", (.Int64, .Shl)), ("i64.shr_u", (.Int64, .ShrU)), ("i64.shr_s", (.Int64, .ShrS)),
   ("i64.rotr", (.Int64, .Rotr)), ("i64.rotl", (.Int64, .Rotl))]

/-- The two-operand integer comparison tags of `parse_op` and the `IntCmp`
instruction each emits. -/
def intCmpTags : List (String × (IntType × IntCmpOp)) :=
  [("i32.eq", (.Int32, .Eq)), ("i32.ne", (.Int32, .Ne)),
   ("i32.lt_s", (.Int32, .LtS)), ("i32.le_s", (.Int32, .LeS)),
   ("i32.lt_u", (.Int32, .LtU)), ("i32.le_u", (.Int32, .LeU)),
   ("i32.gt_s", (.Int32, .GtS)), ("i32.ge_s", (.Int32, .GeS)),
   ("i32.gt_u", (.Int32, .GtU)), ("i32.ge_u", (.Int32, .GeU)),
   ("i64.eq", (.Int64, .Eq)), ("i64.ne", (.Int64, .Ne)),
   ("i64.lt_s", (.Int64, .LtS)), ("i64.le_s", (.Int64, .LeS)),
   ("i64.lt_u", (.Int64, .LtU)), ("i64.le_u", (.Int64, .LeU)),
   ("i64.gt_s", (.Int64, .GtS)), ("i64.ge_s", (.Int64, .GeS)),
   ("i64.gt_u", (.Int64, .GtU)), ("i64.ge_u", (.Int64, .GeU))]

/-- The one-operand integer tags of `parse_op` and the `IntUn` instruction
each emits. -/
def intUnTags : List (String × (IntType × IntUnOp)) :=
  [("i32.clz", (.Int32, .Clz)), ("i32.ctz", (.Int32, .Ctz)), ("i32.popcnt", (.Int32, .Popcnt)),
   ("i64.clz", (.Int64, .Clz)), ("i64.ctz", (.Int64, .Ctz)), ("i64.popcnt", (.Int64, .Popcnt))]

/-- The `eqz` tags of `parse_op` and the width of the `IntEqz` each emits. -/
def eqzTags : List (String × IntType) :=
  [("i32.eqz", .Int32), ("i64.eqz", .Int64)]

/-- First-match lookup of a tag in `intBinTags`. -/
def intBinTag (op : String) : Option (IntType × IntBinOp) :=
  (intBinTags.find? (fun e => e.1 = op)).map (fun e => e.2)

/-- First-match lookup of a tag in `intCmpTags`. -/
def intCmpTag (op : String) : Option (IntType × IntCmpOp) :=
  (intCmpTags.find? (fun e => e.1 = op)).map (fun e => e.2)

/-- First-match lookup of a tag in `intUnTags`. -/
def intUnTag (op : String) : Option (IntType × IntUnOp) :=
  (intUnTags.find? (fun e => e.1 = op)).map (fun e => e.2)

/-- First-match lookup of a tag in `eqzTags`. -/
def eqzTag (op : String) : Option IntType :=
  (eqzTags.find? (fun e => e.1 = op)).map (fun e => e.2)

mutual

/-- `testcase.rs` `parse_op`: translate one instruction s-expression,
appending the emitted instructions to `ops`.  The expression must be a list
headed by an identifier tag.  The source dispatches on the tag in one
`match` of disjoint string literals; the embedding groups the arms into the
tag tables above (a tag appears in exactly one table, so the grouping and
its order are behaviour-preserving).  Nested operand expressions are parsed
first, so their instructions land in `ops` before the instruction for the
tag itself; arity `assert`s and unknown tags abort (`none`). -/
def parse_op (s : Sexpr) (ops : List NormalOp) (local_names : List (String × Nat)) :
    Option (List NormalOp) :=
  match s with
  | .List (.Identifier op :: args) =>
    if nopTags.contains op then some (ops ++ [.Nop])
    else if op = "return" then
      match parse_ops args ops local_names with
      | some (ops2, num) =>
        if num = 0 ∨ num = 1 then some (ops2 ++ [.Return (num == 1)]) else none
      | none => none
    else if op = "get_local" then
      (read_local args local_names).map (fun i => ops ++ [.GetLocal i])
    else if op = "set_local" then
      (read_local args local_names).map (fun i => ops ++ [.SetLocal i])
    else if op = "tee_local" then
      (read_local args local_names).map (fun i => ops ++ [.TeeLocal i])
    else
      match intBinTag op with
      | some (ty, bop) =>
        match parse_ops args ops local_names with
        | some (ops2, num) => if num = 2 then some (ops2 ++ [.IntBin ty bop]) else none
        | none => none
      | none =>
        match intCmpTag op with
        | some (ty, cop) =>
          match parse_ops args ops local_names with
          | some (ops2, num) => if num = 2 then some (ops2 ++ [.IntCmp ty cop]) else none
          | none => none
        | none =>
          match intUnTag op with
          | some (ty, uop) =>
            match parse_ops args ops local_names with
            | some (ops2, num) => if num = 1 then some (ops2 ++ [.IntUn ty uop]) else none
            | none => none
          | none =>
            match eqzTag op with
            | some ty =>
              match parse_ops args ops local_names with
              | some (ops2, num) => if num = 1 then some (ops2 ++ [.IntEqz ty]) else none
              | none => none
            | none => none
  | _ => none

/-- `testcase.rs` `parse_ops`: parse each expression in order into `ops`,
returning the new contents and how many expressions were parsed. -/
def parse_ops (exprs : List Sexpr) (ops : List NormalOp)
    (local_names : List (String × Nat)) : Option (List NormalOp × Nat) :=
  match exprs with
  | [] => some (ops, 0)
  | s :: rest =>
    match parse_op s ops local_names with
    | some ops2 =>
      match parse_ops rest ops2 local_names with
      | some (ops3, num) => some (ops3, num + 1)
      | none => none
    | none => none

end

/-- One iteration of the declaration loop in `TestCase::parse` (the `while
let Some(s) = it.next()` over a `func` form): a `param` declaration binds its
variable to the next parameter slot (the current parameter count) and
appends the type code; `result` sets the return type; a `local` declaration
binds its variable to slot `param count + locals so far` and appends the
local type; anything else is handed to `parse_op`. -/
def parseFuncItem (s : Sexpr) (func : FunctionBuilder)
    (local_names : List (String × Nat)) :
    Option (FunctionBuilder × List (String × Nat)) :=
  match s with
  | .List [.Identifier "param", id, ty] =>
    match id with
    | .Variable v =>
      let local_names2 := (v, func.ty.param_types.length) :: local_names
      match ty with
      | .Identifier t =>
        match parse_type t with
        | some pt =>
          some ({ func with
                    ty := { func.ty with
                              param_types := func.ty.param_types ++ [pt.to_u8] } },
                local_names2)
        | none => none
      | _ => none
    | _ => none
  | .List [.Identifier "result", ty] =>
    match ty with
    | .Identifier t =>
      match parse_type t with
      | some rt => some ({ func with ty := { func.ty with return_type := some rt } }, local_names)
      | none => none
    | _ => none
  | .List [.Identifier "local", id, ty] =>
    match id with
    | .Variable v =>
      let local_names2 :=
        (v, func.ty.param_types.length + func.local_types.length) :: local_names
      match ty with
      | .Identifier t =>
        match parse_type t with
        | some lt => some ({ func with local_types := func.local_types ++ [lt] }, local_names2)
        | none => none
      | _ => none
    | _ => none
  | _ =>
    match parse_op s func.ops local_names with
    | some ops2 => some ({ func with ops := ops2 }, local_names)
    | none => none

/-- The declaration loop of `TestCase::parse` over all remaining items of a
`func` form. -/
def parseFuncItems : List Sexpr → FunctionBuilder → List (String × Nat) →
    Option (FunctionBuilder × List (String × Nat))
  | [], func, local_names => some (func, local_names)
  | s :: rest, func, local_names =>
    match parseFuncItem s func local_names with
    | some (func2, names2) => parseFuncItems rest func2 names2
    | none => none

/-- The `func` arm of `TestCase::parse`.  Note that the source calls
`it.next()` once to look for a leading name variable: the first item of the
form is consumed whether or not it is a variable, so an unnamed function
whose first item is a declaration silently loses that declaration. -/
def parseFunc (it : List Sexpr) : Option (Option String × FunctionBuilder) :=
  match it with
  | [] => some (none, FunctionBuilder.new)
  | first :: rest =>
    let name := match first with
      | .Variable v => some v
      | _ => none
    (parseFuncItems rest FunctionBuilder.new []).map (fun r => (name, r.1))

/-- One iteration of the module-item loop of `TestCase::parse`: `func` forms
are parsed and appended (a named function is recorded in `function_names`
with its index — the function-list length just before the push); `export`
forms look the variable up in `function_names` (`unwrap` aborts on an
unknown function) and append an `Export`; `import`, `type`, `memory`,
`table` and `start` forms are recognized and skipped; anything else
aborts. -/
def parseModuleItem (s : Sexpr) (m : Module)
    (function_names : List (String × Nat)) :
    Option (Module × List (String × Nat)) :=
  match s with
  | .List (.Identifier "func" :: it) =>
    match parseFunc it with
    | some (name, func) =>
      some ({ m with
                functions := m.functions ++ [func.ty],
                code := m.code ++ [func.build] },
            match name with
            | some n => (n, m.functions.length) :: function_names
            | none => function_names)
    | none => none
  | .List [.Identifier "export", name, id] =>
    match id with
    | .Variable idv =>
      match name with
      | .String namev =>
        match lookupName function_names idv with
        | some idx =>
          some ({ m with exports := m.exports ++ [⟨idx, namev⟩] }, function_names)
        | none => none
      | _ => none
    | _ => none
  | .List [.Identifier "import", _, _, _] => some (m, function_names)
  | .List [.Identifier "import", _, _, _, _] => some (m, function_names)
  | .List [.Identifier "type", _, _] => some (m, function_names)
  | .List [.Identifier "type", _] => some (m, function_names)
  | .List (.Identifier "memory" :: _) => some (m, function_names)
  | .List (.Identifier "table" :: _) => some (m, function_names)
  | .List [.Identifier "start", _] => some (m, function_names)
  | _ => none

/-- The module-item loop of `TestCase::parse` over the items of a `module`
form. -/
def parseModuleItems : List Sexpr → Module → List (String × Nat) →
    Option (Module × List (String × Nat))
  | [], m, function_names => some (m, function_names)
  | s :: rest, m, function_names =>
    match parseModuleItem s m function_names with
    | some (m2, names2) => parseModuleItems rest m2 names2
    | none => none

/-- The `module` arm of `TestCase::parse`: build a module from an empty one
(`Module::new`) and a fresh `function_names` table. -/
def parse_module (it : List Sexpr) : Option Module :=
  (parseModuleItems it Module.new []).map (fun r => r.1)

/-- The top-level loop of `TestCase::parse` over the parsed s-expressions:
a `module` form replaces the current module; `assert_return` and
`assert_trap` forms append assertions in source order; `assert_invalid`,
`assert_return_nan` and bare `invoke` forms abort (explicit source
`panic`s), as does any unrecognized form. -/
def parseTopLevel : List Sexpr → Option Module → List Assert →
    Option (Option Module × List Assert)
  | [], module, asserts => some (module, asserts)
  | s :: rest, module, asserts =>
    match s with
    | .List (.Identifier "module" :: it) =>
      match parse_module it with
      | some m => parseTopLevel rest (some m) asserts
      | none => none
    | .List [.Identifier "assert_invalid", _, _] => none
    | .List [.Identifier "assert_return", invoke, result] =>
      match parse_invoke invoke, parse_const result with
      | some inv, some r => parseTopLevel rest module (asserts ++ [Assert.Return inv r])
      | _, _ => none
    | .List [.Identifier "assert_return_nan", _] => none
    | .List [.Identifier "assert_trap", invoke, _] =>
      match parse_invoke invoke with
      | some inv => parseTopLevel rest module (asserts ++ [Assert.Trap inv])
      | none => none
    | _ => none

/-- `testcase.rs` `TestCase::parse`, starting from the s-expression list the
(excluded) front end produced from the input bytes.  The final
`module.unwrap()` aborts when no `module` form was seen. -/
def TestCase.parse (exprs : List Sexpr) : Option TestCase :=
  match parseTopLevel exprs none [] with
  | some (some m, asserts) => some ⟨m, asserts⟩
  | _ => none

/-! ## Claims -/

/-- Claim C1: for every invocation request whose function name has no
matching export in the module's export table, `Invoke::run` aborts fatally
(the `unwrap` on the failed lookup, embedded as `none`) rather than
returning a `Trap` or any other `InterpResult`; by the shape of
`Invoke.run`, the `invoke` call is never reached in this case. -/
theorem invoke_run_missing_export_aborts (inst : Instance) (inv : Invoke)
    (h : inst.module.find inv.function_name = none) :
    inv.run inst = none := by
  unfold Invoke.run
  rw [h]

/-- Witness for `invoke_run_missing_export_aborts`: the empty module exports
nothing, so running an invocation of `"f"` against it aborts. -/
theorem invoke_run_missing_export_aborts_witness :
    Module.new.find "f" = none ∧
      Invoke.run ⟨"f", []⟩ (Instance.new Module.new) = none :=
  ⟨rfl, invoke_run_missing_export_aborts (Instance.new Module.new) ⟨"f", []⟩ rfl⟩

/-- Claim C2: an `Assert::Return(invoke, v)` passes (its `assert_eq`
succeeds, embedded as `some ()`) exactly when the invocation's machine
result is `InterpResult::Value(Some(v))`, and an `Assert::Trap(invoke)`
passes exactly when it is `InterpResult::Trap` — the trap is compared as a
first-class result value of the same comparison, not treated as a crash. -/
theorem assert_run_passes_iff (inst : Instance) (inv : Invoke) (v : Dynamic) :
    ((Assert.Return inv v).run inst = some () ↔
      inv.run inst = some (InterpResult.Value (some v))) ∧
    ((Assert.Trap inv).run inst = some () ↔ inv.run inst = some InterpResult.Trap) := by
  constructor
  · simp only [Assert.run]
    cases h : inv.run inst with
    | none => simp
    | some r => by_cases hr : r = InterpResult.Value (some v) <;> simp [hr]
  · simp only [Assert.run]
    cases h : inv.run inst with
    | none => simp
    | some r => by_cases hr : r = InterpResult.Trap <;> simp [hr]

/-- The `(param i32)(param i32)(result i32)` signature of the division
scenario of spec section 8. -/
def divFunc : FuncTy := ⟨[Ty.to_u8 .Int32, Ty.to_u8 .Int32], some .Int32⟩

/-- Body `GetLocal 0, GetLocal 1, IntBin(Int32, DivU), Return{has_arg:true}`
of the division scenario. -/
def divBody : FunctionBody :=
  ⟨[], [.GetLocal 0, .GetLocal 1, .IntBin .Int32 .DivU, .Return true]⟩

/-- A module holding just the division function. -/
def divModule : Module := ⟨[divFunc], [divBody], []⟩

/-- Claim C3: invoking the `(i32, i32)` function with body `GetLocal 0,
GetLocal 1, IntBin(Int32, DivU), Return{has_arg:true}` on arguments
`(10, 0)` returns `Trap`, and for every left argument `a` a zero divisor
returns `Trap`: division by zero is a trap result, not an error value or a
crash. -/
theorem div_by_zero_traps :
    (Instance.new divModule).invoke 0 [Dynamic.from_u32 10, Dynamic.from_u32 0]
        = some InterpResult.Trap ∧
    ∀ a : Nat, (Instance.new divModule).invoke 0 [Dynamic.from_u32 a, Dynamic.from_u32 0]
        = some InterpResult.Trap :=
  ⟨rfl, fun _ => rfl⟩

/-- Claim C9: `TestCase::run_all` creates exactly one `Instance` from the
parsed module and runs every assertion, in source order, against that same
instance: the i-th entry of `run_all`'s outcome list is exactly the i-th
assertion run against `Instance.new` of the module (and there are no other
entries). -/
theorem run_all_one_instance_in_order (tc : TestCase) (i : Nat) :
    tc.run_all[i]? = (tc.asserts[i]?).map (fun a => a.run (Instance.new tc.module)) := by
  have key : ∀ (l : List Assert) (inst : Instance) (j : Nat),
      (runAsserts l inst)[j]? = (l[j]?).map (fun a => a.run inst) := by
    intro l inst
    induction l with
    | nil => intro j; simp [runAsserts]
    | cons a rest ih => intro j; cases j <;> simp [runAsserts, ih]
  exact key tc.asserts (Instance.new tc.module) i

/-- The number of expressions `parse_ops` reports is the number it was
given. -/
theorem parse_ops_length (exprs : List Sexpr) :
    ∀ (ops : List NormalOp) (names : List (String × Nat)) (o : List NormalOp) (n : Nat),
      parse_ops exprs ops names = some (o, n) → n = exprs.length := by
  induction exprs with
  | nil =>
    intro ops names o n h
    simp only [parse_ops, Option.some.injEq, Prod.mk.injEq] at h
    obtain ⟨-, rfl⟩ := h
    rfl
  | cons s rest ih =>
    intro ops names o n h
    cases hop : parse_op s ops names with
    | none => simp [parse_ops, hop] at h
    | some ops2 =>
      cases hrest : parse_ops rest ops2 names with
      | none => simp [parse_ops, hop, hrest] at h
      | some p =>
        obtain ⟨ops3, num⟩ := p
        simp only [parse_ops, hop, hrest, Option.some.injEq, Prod.mk.injEq] at h
        obtain ⟨-, rfl⟩ := h
        simp [ih ops2 names ops3 num hrest]

/-- Unfolding of the `return` arm of `parse_op`. -/
theorem parse_op_return_eq (args : List Sexpr) (ops : List NormalOp)
    (names : List (String × Nat)) :
    parse_op (.List (.Identifier "return" :: args)) ops names =
      match parse_ops args ops names with
      | some (ops2, num) =>
        if num = 0 ∨ num = 1 then some (ops2 ++ [.Return (num == 1)]) else none
      | none => none := rfl

/-- Claim C6: a `return` form accepts zero or one nested operand expression
— zero operands emit `Return{has_arg:false}`; one operand emits the
operand's instructions followed by `Return{has_arg:true}`; two or more
operands fail the arity `assert` and abort. -/
theorem return_arity_and_emission (ops : List NormalOp) (names : List (String × Nat)) :
    (parse_op (.List [.Identifier "return"]) ops names = some (ops ++ [.Return false])) ∧
    (∀ a : Sexpr, parse_op (.List [.Identifier "return", a]) ops names =
      (parse_op a ops names).map (fun o => o ++ [.Return true])) ∧
    (∀ (a b : Sexpr) (rest : List Sexpr),
      parse_op (.List (.Identifier "return" :: a :: b :: rest)) ops names = none) := by
  refine ⟨rfl, fun a => ?_, fun a b rest => ?_⟩
  · rw [parse_op_return_eq]
    cases h1 : parse_op a ops names with
    | none => simp [parse_ops, h1]
    | some o => simp [parse_ops, h1]
  · rw [parse_op_return_eq]
    cases h : parse_ops (a :: b :: rest) ops names with
    | none => rfl
    | some p =>
      obtain ⟨o, n⟩ := p
      have hn := parse_ops_length (a :: b :: rest) ops names o n h
      show (if n = 0 ∨ n = 1 then some (o ++ [NormalOp.Return (n == 1)]) else none) = none
      rw [if_neg (by simp [hn])]

/-- The instruction tags claim C4 enumerates as accepted-but-unimplemented:
`unreachable`, `drop`, `end`, the four const tags, every memory load/store
tag, the call tags, and every floating-point arithmetic, comparison and
conversion tag. -/
def stubTags : List String :=
  ["unreachable", "drop", "end",
   "i32.const", "i64.const", "f64.const", "f32.const",
   "call", "callindirect", "callimport",
   "i32.load8s", "i32.load8u", "i32.load16s", "i32.load16u",
   "i64.load8s", "i64.load8u", "i64.load16s", "i64.load16u",
   "i64.load32s", "i64.load32u", "i32.load", "i64.load", "f32.load", "f64.load",
   "i32.store8", "i32.store16", "i64.store8", "i64.store16", "i64.store32",
   "i32.store", "i64.store", "f32.store", "f64.store",
   "f32.add", "f32.sub", "f32.mul", "f32.div", "f32.min", "f32.max",
   "f32.abs", "f32.neg", "f32.copysign", "f32.ceil", "f32.floor", "f32.trunc",
   "f32.nearest", "f32.sqrt",
   "f32.eq", "f32.ne", "f32.lt", "f32.le", "f32.gt", "f32.ge",
   "f64.add", "f64.sub", "f64.mul", "f64.div", "f64.min", "f64.max",
   "f64.abs", "f64.neg", "f64.copysign", "f64.ceil", "f64.floor", "f64.trunc",
   "f64.nearest", "f64.sqrt",
   "f64.eq", "f64.ne", "f64.lt", "f64.le", "f64.gt", "f64.ge",
   "i32.trunc_s/f32", "i32.trunc_s/f64", "i32.trunc_u/f32", "i32.trunc_u/f64",
   "i64.trunc_s/f32", "i64.trunc_s/f64", "i64.trunc_u/f32", "i64.trunc_u/f64",
   "f32.convert_s/i32", "f32.convert_u/i32", "f32.convert_s/i64", "f32.convert_u/i64",
   "f32.demote/f64", "f32.reinterpret/i32",
   "f64.convert_s/i32", "f64.convert_u/i32", "f64.convert_s/i64", "f64.convert_u/i64",
   "f64.promote/f32", "f64.reinterpret/i64",
   "i32.reinterpret/f32", "i64.reinterpret/f64"]

/-- Claim C4: for every tag in `stubTags`, whatever its argument
expressions, `parse_op` appends exactly one `NormalOp::Nop` and succeeds, so
scripts using the broader format are accepted without aborting the parser or
crashing the engine (a `Nop` consumes nothing and pushes nothing, by the
`execOps` equation for `Nop`). -/
theorem stub_tags_emit_single_nop :
    (∀ t ∈ stubTags, ∀ (args : List Sexpr) (ops : List NormalOp)
        (names : List (String × Nat)),
      parse_op (.List (.Identifier t :: args)) ops names = some (ops ++ [.Nop])) ∧
    (∀ (rest : List NormalOp) (stack locals : List Dynamic),
      execOps (.Nop :: rest) stack locals = execOps rest stack locals) := by
  refine ⟨fun t h args ops names => ?_, fun rest stack locals => rfl⟩
  fin_cases h <;> rfl

/-- Witness for `stub_tags_emit_single_nop` at the `unreachable` tag
(with, as an extra sanity check, the no-op stack/locals behaviour of the
emitted `Nop`). -/
theorem stub_tags_emit_single_nop_witness :
    "unreachable" ∈ stubTags ∧
      parse_op (.List [.Identifier "unreachable"]) [] [] = some ([] ++ [.Nop]) :=
  ⟨by decide, stub_tags_emit_single_nop.1 "unreachable" (by decide) [] [] []⟩

/-- The two-operand emission discipline of claim C5 for tag `t` emitting
instruction `res`: exactly two nested operand expressions are required (any
other count aborts), the first-written (left) operand's instructions are
emitted first, then the second (right) operand's, then `res` itself — so at
execution the right operand is on top of the stack and popped first. -/
def TwoOpEmission (t : String) (res : NormalOp) : Prop :=
  (∀ (a b : Sexpr) (ops : List NormalOp) (names : List (String × Nat)),
    parse_op (.List [.Identifier t, a, b]) ops names =
      match parse_op a ops names with
      | some o1 =>
        match parse_op b o1 names with
        | some o2 => some (o2 ++ [res])
        | none => none
      | none => none) ∧
  (∀ (args : List Sexpr) (ops : List NormalOp) (names : List (String × Nat)),
    args.length ≠ 2 → parse_op (.List (.Identifier t :: args)) ops names = none)

/-- `TwoOpEmission` follows for any tag whose `parse_op` arm parses its
arguments through `parse_ops`, checks the count is two, and appends one
instruction. -/
theorem twoOpEmission_of_eq (t : String) (res : NormalOp)
    (heq : ∀ (args : List Sexpr) (ops : List NormalOp) (names : List (String × Nat)),
      parse_op (.List (.Identifier t :: args)) ops names =
        match parse_ops args ops names with
        | some (ops2, num) => if num = 2 then some (ops2 ++ [res]) else none
        | none => none) :
    TwoOpEmission t res := by
  constructor
  · intro a b ops names
    rw [heq]
    cases h1 : parse_op a ops names with
    | none => simp [parse_ops, h1]
    | some o1 =>
      cases h2 : parse_op b o1 names with
      | none => simp [parse_ops, h1, h2]
      | some o2 => simp [parse_ops, h1, h2]
  · intro args ops names hlen
    rw [heq]
    cases h : parse_ops args ops names with
    | none => rfl
    | some p =>
      obtain ⟨o, n⟩ := p
      have hn := parse_ops_length args ops names o n h
      show (if n = 2 then some (o ++ [res]) else none) = none
      rw [if_neg (by omega)]

/-- Claim C5: every two-operand integer instruction tag — the `i32.`/`i64.`
arithmetic, bitwise, shift and rotate forms of `intBinTags` and the
comparison forms of `intCmpTags` — requires exactly two nested operand
expressions and emits the left operand's instructions, then the right
operand's, then the `IntBin`/`IntCmp` instruction. -/
theorem twoop_tags_left_right_op :
    (∀ e ∈ intBinTags, TwoOpEmission e.1 (.IntBin e.2.1 e.2.2)) ∧
    (∀ e ∈ intCmpTags, TwoOpEmission e.1 (.IntCmp e.2.1 e.2.2)) := by
  constructor
  · intro e h
    fin_cases h <;> exact twoOpEmission_of_eq _ _ (fun args ops names => rfl)
  · intro e h
    fin_cases h <;> exact twoOpEmission_of_eq _ _ (fun args ops names => rfl)

/-- Witness for `twoop_tags_left_right_op` at `i32.add` with concrete
operands `(get_local ...)`: the left operand's instruction is emitted first,
then the right's, then the `IntBin`; and a one-operand `i32.add` aborts. -/
theorem twoop_tags_left_right_op_witness :
    parse_op (.List [.Identifier "i32.add",
        .List [.Identifier "get_local", .Variable "x"],
        .List [.Identifier "get_local", .Variable "y"]]) []
      [("x", 0), ("y", 1)] =
      some [.GetLocal 0, .GetLocal 1, .IntBin .Int32 .Add] ∧
    parse_op (.List [.Identifier "i32.add",
        .List [.Identifier "get_local", .Variable "x"]]) [] [("x", 0), ("y", 1)] = none := by
  have h := twoop_tags_left_right_op.1 ("i32.add", (.Int32, .Add)) (by decide)
  constructor
  · rw [h.1 (.List [.Identifier "get_local", .Variable "x"])
        (.List [.Identifier "get_local", .Variable "y"]) [] [("x", 0), ("y", 1)]]
    rfl
  · exact h.2 [.List [.Identifier "get_local", .Variable "x"]] [] [("x", 0), ("y", 1)] (by decide)

/-- Claim C10: `parse_int` dispatches on the token's first characters — a
leading `-` selects the signed decimal parse of the whole token, a leading
`0x` (without `-`) the unsigned hexadecimal parse of the remainder, anything
else the unsigned decimal parse — and every failure aborts `TestCase::parse`
(`none`, the `unwrap`/`panic` embedding) instead of producing an error
value: a non-identifier s-expression, an out-of-range value, and the
negative hexadecimal literal `-0x10` (whose `-` branch rejects `0x10` as
decimal digits) all abort, as demonstrated on a whole script. -/
theorem parse_int_dispatch :
    (∀ t : String, ['-'].isPrefixOf t.data = true →
      parse_int (.Identifier t) .Int32 = (from_str_radix_i 10 32 t.data).map Dynamic.from_i32 ∧
      parse_int (.Identifier t) .Int64 = (from_str_radix_i 10 64 t.data).map Dynamic.from_i64) ∧
    (∀ t : String, ['-'].isPrefixOf t.data = false → ['0', 'x'].isPrefixOf t.data = true →
      parse_int (.Identifier t) .Int32 =
        (from_str_radix_u 16 32 (t.data.drop 2)).map Dynamic.from_u32 ∧
      parse_int (.Identifier t) .Int64 =
        (from_str_radix_u 16 64 (t.data.drop 2)).map Dynamic.from_u64) ∧
    (∀ t : String, ['-'].isPrefixOf t.data = false → ['0', 'x'].isPrefixOf t.data = false →
      parse_int (.Identifier t) .Int32 = (from_str_radix_u 10 32 t.data).map Dynamic.from_u32 ∧
      parse_int (.Identifier t) .Int64 = (from_str_radix_u 10 64 t.data).map Dynamic.from_u64) ∧
    (∀ (items : List Sexpr) (ty : IntType), parse_int (.List items) ty = none) ∧
    (∀ (s : String) (ty : IntType), parse_int (.String s) ty = none) ∧
    (∀ (v : String) (ty : IntType), parse_int (.Variable v) ty = none) ∧
    (parse_int (.Identifier "-0x10") .Int32 = none ∧
      parse_int (.Identifier "-0x10") .Int64 = none) ∧
    (parse_int (.Identifier "4294967296") .Int32 = none ∧
      parse_int (.Identifier "-2147483649") .Int32 = none ∧
      parse_int (.Identifier "2147483648") .Int32 = some (.Int32 2147483648) ∧
      parse_int (.Identifier "-5") .Int32 = some (.Int32 4294967291)) ∧
    TestCase.parse
        [.List [.Identifier "module"],
         .List [.Identifier "assert_return",
            .List [.Identifier "invoke", .String "f"],
            .List [.Identifier "i32.const", .Identifier "-0x10"]]] = none := by
  refine ⟨fun t h => ⟨by simp [parse_int, h], by simp [parse_int, h]⟩,
    fun t h1 h2 => ⟨by simp [parse_int, h1, h2], by simp [parse_int, h1, h2]⟩,
    fun t h1 h2 => ⟨by simp [parse_int, h1, h2], by simp [parse_int, h1, h2]⟩,
    fun items ty => by cases ty <;> rfl,
    fun s ty => by cases ty <;> rfl,
    fun v ty => by cases ty <;> rfl,
    by decide, by decide, by decide⟩

/-- Witness for `parse_int_dispatch`, applying each conditional case at a
concrete token. -/
theorem parse_int_dispatch_witness :
    parse_int (.Identifier "-7") .Int32 =
      (from_str_radix_i 10 32 "-7".data).map Dynamic.from_i32 ∧
    parse_int (.Identifier "0x10") .Int32 =
      (from_str_radix_u 16 32 ("0x10".data.drop 2)).map Dynamic.from_u32 ∧
    parse_int (.Identifier "12") .Int32 =
      (from_str_radix_u 10 32 "12".data).map Dynamic.from_u32 :=
  ⟨(parse_int_dispatch.1 "-7" (by decide)).1,
   (parse_int_dispatch.2.1 "0x10" (by decide) (by decide)).1,
   (parse_int_dispatch.2.2.1 "12" (by decide) (by decide)).1⟩

/-- The text-format name of a type, inverse of `parse_type`. -/
def Ty.name : Ty → String
  | .Int32 => "i32"
  | .Int64 => "i64"
  | .Float32 => "f32"
  | .Float64 => "f64"

theorem parse_type_name (t : Ty) : parse_type t.name = some t := by cases t <;> rfl

/-- A `(param $v ty)` declaration form. -/
def paramDecl (p : String × Ty) : Sexpr :=
  .List [.Identifier "param", .Variable p.1, .Identifier p.2.name]

/-- A `(local $v ty)` declaration form. -/
def localDecl (p : String × Ty) : Sexpr :=
  .List [.Identifier "local", .Variable p.1, .Identifier p.2.name]

/-- The name-table bindings produced by processing a run of declarations,
most recent insertion first: the i-th name is bound to `base + i`. -/
def declBindings (base : Nat) : List String → List (String × Nat)
  | [] => []
  | v :: rest => declBindings (base + 1) rest ++ [(v, base)]

theorem parseFuncItem_param (v : String) (t : Ty) (fb : FunctionBuilder)
    (names : List (String × Nat)) :
    parseFuncItem (paramDecl (v, t)) fb names =
      some ({ fb with ty := { fb.ty with param_types := fb.ty.param_types ++ [t.to_u8] } },
            (v, fb.ty.param_types.length) :: names) := by
  cases t <;> rfl

theorem parseFuncItem_local (v : String) (t : Ty) (fb : FunctionBuilder)
    (names : List (String × Nat)) :
    parseFuncItem (localDecl (v, t)) fb names =
      some ({ fb with local_types := fb.local_types ++ [t] },
            (v, fb.ty.param_types.length + fb.local_types.length) :: names) := by
  cases t <;> rfl

theorem parseFuncItems_append (l1 l2 : List Sexpr) :
    ∀ (fb : FunctionBuilder) (names : List (String × Nat)),
      parseFuncItems (l1 ++ l2) fb names =
        match parseFuncItems l1 fb names with
        | some (fb2, names2) => parseFuncItems l2 fb2 names2
        | none => none := by
  induction l1 with
  | nil => intro fb names; rfl
  | cons s rest ih =>
    intro fb names
    show parseFuncItems (s :: (rest ++ l2)) fb names = _
    cases h : parseFuncItem s fb names with
    | none => simp [parseFuncItems, h]
    | some p =>
      obtain ⟨fb2, names2⟩ := p
      simp [parseFuncItems, h, ih fb2 names2]

theorem parseFuncItems_append_some (l1 l2 : List Sexpr) (fb : FunctionBuilder)
    (names : List (String × Nat)) (fb2 : FunctionBuilder) (names2 : List (String × Nat))
    (h : parseFuncItems l1 fb names = some (fb2, names2)) :
    parseFuncItems (l1 ++ l2) fb names = parseFuncItems l2 fb2 names2 := by
  rw [parseFuncItems_append, h]

theorem parseFuncItems_params (pars : List (String × Ty)) :
    ∀ (fb : FunctionBuilder) (names : List (String × Nat)),
      parseFuncItems (pars.map paramDecl) fb names =
        some ({ fb with ty := { fb.ty with
                  param_types := fb.ty.param_types ++ pars.map (fun p => p.2.to_u8) } },
              declBindings fb.ty.param_types.length (pars.map Prod.fst) ++ names) := by
  induction pars with
  | nil =>
    intro fb names
    simp [parseFuncItems, declBindings]
  | cons p rest ih =>
    intro fb names
    obtain ⟨v, t⟩ := p
    simp only [List.map_cons, parseFuncItems, parseFuncItem_param, declBindings]
    rw [ih]
    simp [List.append_assoc]

theorem parseFuncItems_locals (locs : List (String × Ty)) :
    ∀ (fb : FunctionBuilder) (names : List (String × Nat)),
      parseFuncItems (locs.map localDecl) fb names =
        some ({ fb with local_types := fb.local_types ++ locs.map Prod.snd },
              declBindings (fb.ty.param_types.length + fb.local_types.length)
                  (locs.map Prod.fst) ++ names) := by
  induction locs with
  | nil =>
    intro fb names
    simp [parseFuncItems, declBindings]
  | cons p rest ih =>
    intro fb names
    obtain ⟨v, t⟩ := p
    simp only [List.map_cons, parseFuncItems, parseFuncItem_local, declBindings]
    rw [ih]
    simp [List.append_assoc, Nat.add_assoc]

theorem lookupName_append (l1 l2 : List (String × Nat)) (v : String) :
    lookupName (l1 ++ l2) v =
      match lookupName l1 v with
      | some n => some n
      | none => lookupName l2 v := by
  induction l1 with
  | nil => rfl
  | cons p rest ih =>
    by_cases h : p.1 = v
    · simp [lookupName, List.find?, h]
    · simp only [lookupName, List.cons_append, List.find?] at *
      rw [show (decide (p.1 = v)) = false by simp [h]]
      exact ih

theorem lookupName_declBindings_not_mem (vs : List String) :
    ∀ (base : Nat) (v : String), v ∉ vs → lookupName (declBindings base vs) v = none := by
  induction vs with
  | nil => intro base v _; rfl
  | cons w rest ih =>
    intro base v hv
    rw [declBindings, lookupName_append,
        ih (base + 1) v (fun hm => hv (List.mem_cons_of_mem w hm))]
    have hw : w ≠ v := fun he => hv (he ▸ List.mem_cons_self w rest)
    simp [lookupName, List.find?, hw]

theorem lookupName_declBindings_get (vs : List String) :
    ∀ (base k : Nat) (hk : k < vs.length), vs.Nodup →
      lookupName (declBindings base vs) (vs.get ⟨k, hk⟩) = some (base + k) := by
  induction vs with
  | nil => intro base k hk _; exact absurd hk (by simp)
  | cons w rest ih =>
    intro base k hk hnd
    rw [declBindings, lookupName_append]
    cases k with
    | zero =>
      have hw : (w :: rest).get ⟨0, hk⟩ = w := rfl
      rw [hw, lookupName_declBindings_not_mem rest (base + 1) w (List.nodup_cons.mp hnd).1]
      simp [lookupName, List.find?]
    | succ k0 =>
      rw [show (w :: rest).get ⟨k0 + 1, hk⟩ = rest.get ⟨k0, Nat.lt_of_succ_lt_succ hk⟩ from rfl]
      rw [ih (base + 1) k0 (Nat.lt_of_succ_lt_succ hk) (List.nodup_cons.mp hnd).2]
      show some (base + 1 + k0) = some (base + (k0 + 1))
      rw [Nat.add_assoc, Nat.add_comm 1 k0]

/-- Claim C7 counterexample: in a func form where a `local` declaration
precedes a `param` declaration, the local's slot index is computed from the
parameter count *at declaration time*, so local `x` is assigned slot `0`
even though the function ends with one parameter (`P = 1`) and the claim
requires the local to sit at `P + 0 = 1`; its index collides with the
parameter's slot `0` instead. -/
theorem local_slot_claim_counterexample :
    (parseFuncItems
        [Sexpr.List [Sexpr.Identifier "local", Sexpr.Variable "x", Sexpr.Identifier "i32"],
         Sexpr.List [Sexpr.Identifier "param", Sexpr.Variable "a", Sexpr.Identifier "i32"]]
        FunctionBuilder.new []).map
        (fun r => (r.1.ty.param_types.length, r.1.local_types.length,
                   lookupName r.2 "x", lookupName r.2 "a")) =
      some (1, 1, some 0, some 0) ∧
    (parseFuncItems
        [Sexpr.List [Sexpr.Identifier "local", Sexpr.Variable "x", Sexpr.Identifier "i32"],
         Sexpr.List [Sexpr.Identifier "param", Sexpr.Variable "a", Sexpr.Identifier "i32"]]
        FunctionBuilder.new []).map (fun r => lookupName r.2 "x") ≠ some (some 1) := by
  exact ⟨by decide, by decide⟩

/-- Claim C7 as amended: for every *named* function form in which every
`param` declaration precedes every `local` declaration and the declared
identifiers are distinct, the local-name table of `TestCase::parse` assigns
the k-th parameter slot index `k` (for `0 ≤ k < P`) and the j-th declared
local slot index `P + j` — slots immediately after the last parameter.
(The source consumes the first item of a func form while probing for its
name, and indexes a local by the parameter count seen *so far*, so the
unrestricted original claim fails: see the counterexample.) -/
theorem local_slot_indices (pars locs : List (String × Ty)) (nm : String)
    (hnodup : (pars.map Prod.fst ++ locs.map Prod.fst).Nodup) :
    ∃ (fb : FunctionBuilder) (names : List (String × Nat)),
      parseFuncItems (pars.map paramDecl ++ locs.map localDecl)
          FunctionBuilder.new [] = some (fb, names) ∧
      parseFunc (Sexpr.Variable nm :: (pars.map paramDecl ++ locs.map localDecl)) =
        some (some nm, fb) ∧
      fb.ty.param_types.length = pars.length ∧
      fb.local_types.length = locs.length ∧
      (∀ k (hk : k < pars.length), lookupName names (pars.get ⟨k, hk⟩).1 = some k) ∧
      (∀ j (hj : j < locs.length), lookupName names (locs.get ⟨j, hj⟩).1 =
        some (pars.length + j)) := by
  have hpars := parseFuncItems_params pars FunctionBuilder.new []
  have happ := parseFuncItems_append_some (pars.map paramDecl) (locs.map localDecl)
    _ _ _ _ hpars
  rw [parseFuncItems_locals] at happ
  refine ⟨_, _, happ, ?_, by simp [FunctionBuilder.new], by simp [FunctionBuilder.new], ?_, ?_⟩
  · show (parseFuncItems (pars.map paramDecl ++ locs.map localDecl)
        FunctionBuilder.new []).map (fun r => (some nm, r.1)) = _
    rw [happ]
    rfl
  · intro k hk
    simp only [FunctionBuilder.new, List.nil_append, List.length_map, List.length_nil,
      Nat.add_zero, List.append_nil]
    rw [lookupName_append]
    have hnotmem : (pars.get ⟨k, hk⟩).1 ∉ locs.map Prod.fst := by
      have hmem : (pars.get ⟨k, hk⟩).1 ∈ pars.map Prod.fst :=
        List.mem_map_of_mem Prod.fst (pars.get_mem k hk)
      exact fun hc => (List.disjoint_of_nodup_append hnodup) hmem hc
    rw [lookupName_declBindings_not_mem _ _ _ hnotmem]
    have hget : (pars.map Prod.fst).get ⟨k, by simpa using hk⟩ = (pars.get ⟨k, hk⟩).1 := by
      simp
    show lookupName (declBindings 0 (pars.map Prod.fst)) ((pars.get ⟨k, hk⟩).1) = some k
    rw [← hget,
        lookupName_declBindings_get (pars.map Prod.fst) 0 k (by simpa using hk)
          (hnodup.of_append_left)]
    simp
  · intro j hj
    simp only [FunctionBuilder.new, List.nil_append, List.length_map, List.length_nil,
      Nat.add_zero, List.append_nil]
    rw [lookupName_append]
    have hget : (locs.map Prod.fst).get ⟨j, by simpa using hj⟩ = (locs.get ⟨j, hj⟩).1 := by
      simp
    rw [← hget,
        lookupName_declBindings_get (locs.map Prod.fst) _ j (by simpa using hj)
          (hnodup.of_append_right)]

/-- Witness for `local_slot_indices`: a named function with params `a b`
and locals `x y`, whose table assigns `a ↦ 0`, `b ↦ 1`, `x ↦ 2`, `y ↦ 3`. -/
theorem local_slot_indices_witness :
    ∃ (fb : FunctionBuilder) (names : List (String × Nat)),
      parseFuncItems ([("a", Ty.Int32), ("b", Ty.Int64)].map paramDecl ++
          [("x", Ty.Int32), ("y", Ty.Int64)].map localDecl)
          FunctionBuilder.new [] = some (fb, names) ∧
      parseFunc (Sexpr.Variable "$f" :: ([("a", Ty.Int32), ("b", Ty.Int64)].map paramDecl ++
          [("x", Ty.Int32), ("y", Ty.Int64)].map localDecl)) =
        some (some "$f", fb) ∧
      fb.ty.param_types.length = [("a", Ty.Int32), ("b", Ty.Int64)].length ∧
      fb.local_types.length = [("x", Ty.Int32), ("y", Ty.Int64)].length ∧
      (∀ k (hk : k < [("a", Ty.Int32), ("b", Ty.Int64)].length),
        lookupName names ([("a", Ty.Int32), ("b", Ty.Int64)].get ⟨k, hk⟩).1 = some k) ∧
      (∀ j (hj : j < [("x", Ty.Int32), ("y", Ty.Int64)].length),
        lookupName names ([("x", Ty.Int32), ("y", Ty.Int64)].get ⟨j, hj⟩).1 =
          some ([("a", Ty.Int32), ("b", Ty.Int64)].length + j)) :=
  local_slot_indices [("a", Ty.Int32), ("b", Ty.Int64)] [("x", Ty.Int32), ("y", Ty.Int64)]
    "$f" (by decide)

theorem lookupName_mem (fns : List (String × Nat)) (v : String) (n : Nat)
    (h : lookupName fns v = some n) : (v, n) ∈ fns := by
  unfold lookupName at h
  cases hf : fns.find? (fun p => p.1 = v) with
  | none => rw [hf] at h; exact absurd h (by simp)
  | some p =>
    rw [hf] at h
    have hm := List.mem_of_find?_eq_some hf
    have hp := List.find?_some hf
    simp only [decide_eq_true_eq] at hp
    have hn : p.2 = n := by simpa using h
    have : p = (v, n) := Prod.ext hp hn
    exact this ▸ hm

/-- `parseModuleItem` preserves the invariant that every export index and
every recorded function name is in bounds of the function list. -/
theorem parseModuleItem_preserves (s : Sexpr) (m : Module) (fns : List (String × Nat))
    (m2 : Module) (fns2 : List (String × Nat))
    (h : parseModuleItem s m fns = some (m2, fns2))
    (hexp : ∀ e ∈ m.exports, e.function_index < m.functions.length)
    (hfns : ∀ p ∈ fns, p.2 < m.functions.length) :
    (∀ e ∈ m2.exports, e.function_index < m2.functions.length) ∧
    (∀ p ∈ fns2, p.2 < m2.functions.length) := by
  unfold parseModuleItem at h
  split at h
  next it =>
    cases hfunc : parseFunc it with
    | none => rw [hfunc] at h; exact absurd h (by simp)
    | some p =>
      obtain ⟨name, func⟩ := p
      rw [hfunc] at h
      dsimp only at h
      simp only [Option.some.injEq, Prod.mk.injEq] at h
      obtain ⟨rfl, rfl⟩ := h
      constructor
      · intro e he
        have hb := hexp e he
        show e.function_index < (m.functions ++ [func.ty]).length
        simp only [List.length_append, List.length_cons, List.length_nil]
        omega
      · intro p hp
        show p.2 < (m.functions ++ [func.ty]).length
        simp only [List.length_append, List.length_cons, List.length_nil]
        cases name with
        | none => have := hfns p hp; omega
        | some n =>
          rcases List.mem_cons.mp hp with rfl | hp2
          · omega
          · have := hfns p hp2; omega
  next name id =>
    cases id with
    | Variable idv =>
      cases name with
      | String namev =>
        dsimp only at h
        cases hlook : lookupName fns idv with
        | none => rw [hlook] at h; exact absurd h (by simp)
        | some idx =>
          rw [hlook] at h
          dsimp only at h
          simp only [Option.some.injEq, Prod.mk.injEq] at h
          obtain ⟨rfl, rfl⟩ := h
          refine ⟨?_, hfns⟩
          intro e he
          show e.function_index < m.functions.length
          rcases List.mem_append.mp he with he1 | he2
          · exact hexp e he1
          · have heq : e = ⟨idx, namev⟩ := by simpa using he2
            exact heq ▸ hfns (idv, idx) (lookupName_mem fns idv idx hlook)
      | List l => dsimp only at h; exact absurd h (by simp)
      | Identifier i => dsimp only at h; exact absurd h (by simp)
      | Variable v => dsimp only at h; exact absurd h (by simp)
    | List l => dsimp only at h; exact absurd h (by simp)
    | Identifier i => dsimp only at h; exact absurd h (by simp)
    | String str => dsimp only at h; exact absurd h (by simp)
  all_goals
    first
    | (simp only [Option.some.injEq, Prod.mk.injEq] at h
       obtain ⟨rfl, rfl⟩ := h
       exact ⟨hexp, hfns⟩)
    | simp at h

theorem parseModuleItems_preserves (items : List Sexpr) :
    ∀ (m : Module) (fns : List (String × Nat)) (m2 : Module) (fns2 : List (String × Nat)),
      parseModuleItems items m fns = some (m2, fns2) →
      (∀ e ∈ m.exports, e.function_index < m.functions.length) →
      (∀ p ∈ fns, p.2 < m.functions.length) →
      (∀ e ∈ m2.exports, e.function_index < m2.functions.length) ∧
      (∀ p ∈ fns2, p.2 < m2.functions.length) := by
  induction items with
  | nil =>
    intro m fns m2 fns2 h hexp hfns
    simp only [parseModuleItems, Option.some.injEq, Prod.mk.injEq] at h
    obtain ⟨rfl, rfl⟩ := h
    exact ⟨hexp, hfns⟩
  | cons s rest ih =>
    intro m fns m2 fns2 h hexp hfns
    cases hitem : parseModuleItem s m fns with
    | none => simp [parseModuleItems, hitem] at h
    | some p =>
      obtain ⟨mmid, fnsmid⟩ := p
      simp only [parseModuleItems, hitem] at h
      have hinv := parseModuleItem_preserves s m fns mmid fnsmid hitem hexp hfns
      exact ih mmid fnsmid m2 fns2 h hinv.1 hinv.2

theorem parse_module_exports_bounded (it : List Sexpr) (m : Module)
    (h : parse_module it = some m) :
    ∀ e ∈ m.exports, e.function_index < m.functions.length := by
  unfold parse_module at h
  cases hh : parseModuleItems it Module.new [] with
  | none => rw [hh] at h; exact absurd h (by simp)
  | some p =>
    obtain ⟨m1, fns1⟩ := p
    rw [hh] at h
    have hm : m1 = m := by simpa using h
    subst hm
    exact (parseModuleItems_preserves it Module.new [] m1 fns1 hh
      (by intro e he; simp [Module.new] at he)
      (by intro p hp; simp at hp)).1

theorem parseTopLevel_module_bounded (exprs : List Sexpr) :
    ∀ (mod : Option Module) (asserts : List Assert) (m2 : Module) (as2 : List Assert),
      parseTopLevel exprs mod asserts = some (some m2, as2) →
      (∀ m0, mod = some m0 → ∀ e ∈ m0.exports, e.function_index < m0.functions.length) →
      ∀ e ∈ m2.exports, e.function_index < m2.functions.length := by
  induction exprs with
  | nil =>
    intro mod asserts m2 as2 h hmod
    simp only [parseTopLevel, Option.some.injEq, Prod.mk.injEq] at h
    exact hmod m2 h.1
  | cons s rest ih =>
    intro mod asserts m2 as2 h hmod
    unfold parseTopLevel at h
    split at h
    next it =>
      cases hpm : parse_module it with
      | none => rw [hpm] at h; exact absurd h (by simp)
      | some m =>
        rw [hpm] at h
        exact ih (some m) asserts m2 as2 h
          (fun m0 hm0 => by
            injection hm0 with h2
            exact h2 ▸ parse_module_exports_bounded it m hpm)
    next a b => simp at h
    next invoke result =>
      cases hpi : parse_invoke invoke with
      | none => rw [hpi] at h; simp at h
      | some inv =>
        cases hpc : parse_const result with
        | none => rw [hpi, hpc] at h; simp at h
        | some r =>
          rw [hpi, hpc] at h
          exact ih mod (asserts ++ [Assert.Return inv r]) m2 as2 h hmod
    next a => simp at h
    next invoke text =>
      cases hpi : parse_invoke invoke with
      | none => rw [hpi] at h; simp at h
      | some inv =>
        rw [hpi] at h
        exact ih mod (asserts ++ [Assert.Trap inv]) m2 as2 h hmod
    next => simp at h

/-- Claim C8: every `Export` in a module built by `TestCase::parse` carries
a `function_index` within bounds of the module's function list (the index
recorded for a previously parsed named function), and an `export` form
naming a function absent from the `function_names` table aborts parsing (the
`unwrap`) instead of producing an out-of-range index. -/
theorem export_indices_in_bounds :
    (∀ (exprs : List Sexpr) (tc : TestCase), TestCase.parse exprs = some tc →
      ∀ e ∈ tc.module.exports, e.function_index < tc.module.functions.length) ∧
    (∀ (nm idv : String) (m : Module) (fns : List (String × Nat)),
      lookupName fns idv = none →
      parseModuleItem (.List [.Identifier "export", .String nm, .Variable idv]) m fns
        = none) := by
  constructor
  · intro exprs tc h
    unfold TestCase.parse at h
    cases hpt : parseTopLevel exprs none [] with
    | none => rw [hpt] at h; exact absurd h (by simp)
    | some p =>
      obtain ⟨om, asserts⟩ := p
      rw [hpt] at h
      cases om with
      | none => simp at h
      | some m =>
        simp only [Option.some.injEq] at h
        subst h
        exact parseTopLevel_module_bounded exprs none [] m asserts hpt
          (fun m0 h0 => Option.noConfusion h0)
  · intro nm idv m fns hlook
    show (match lookupName fns idv with
          | some idx =>
            some (({ m with exports := m.exports ++ [⟨idx, nm⟩] } : Module), fns)
          | none => none) = none
    rw [hlook]

/-- Witness for `export_indices_in_bounds`: the parse of
`(module (func $f) (export "f" $f))` yields an export table whose single
index is in bounds, and an `export` of the unknown `$g` aborts. -/
theorem export_indices_in_bounds_witness :
    (∀ e ∈ (Module.mk [⟨[], none⟩] [⟨[], []⟩] [⟨0, "f"⟩]).exports,
      e.function_index < (Module.mk [⟨[], none⟩] [⟨[], []⟩] [⟨0, "f"⟩]).functions.length) ∧
    parseModuleItem (.List [.Identifier "export", .String "f", .Variable "$g"])
      Module.new [] = none :=
  ⟨export_indices_in_bounds.1
      [Sexpr.List [Sexpr.Identifier "module",
         Sexpr.List [Sexpr.Identifier "func", Sexpr.Variable "$f"],
         Sexpr.List [Sexpr.Identifier "export", Sexpr.String "f", Sexpr.Variable "$f"]]]
      ⟨Module.mk [⟨[], none⟩] [⟨[], []⟩] [⟨0, "f"⟩], []⟩ (by decide),
   export_indices_in_bounds.2 "f" "$g" Module.new [] rfl⟩

end Wasm
